import Mathlib

/-!
# Smart Bin Worker — verification of the spec against the source

A shallow embedding of `src/worker.js`: a Cloudflare-style worker that
tracks physical storage bins.  Rows live in a D1 table (`bins`), photos in
an R2 bucket.  We model the D1 table as an association list keyed by
`bin_id`, the R2 bucket as an association list keyed by the blob key, and
each HTTP handler as a pure state-passing function.  JavaScript `??`
(nullish coalescing) and truthiness on strings are modelled explicitly.
-/

namespace SmartBin

/-- A row of the `bins` table (see the `CREATE TABLE` schema): all columns
but `bin_id` and `updated_at` are nullable TEXT, modelled as `Option String`. -/
structure BinRow where
  bin_id : String
  case_code : Option String
  bin_type : Option String
  notes : Option String
  photo_key : Option String
  updated_at : Nat
  deriving DecidableEq, Repr

/-- A JavaScript value read off a parsed JSON body property: `undefined`
(property absent), `null`, or a string.  TEXT columns only ever receive
strings or null, so other JSON values are out of the model. -/
inductive JsVal where
  | undef
  | null
  | str (s : String)
  deriving DecidableEq, Repr

/-- JavaScript `v ?? fallback` where `fallback` is already normalised to
`Option String` (`none` = null): `undefined` and `null` both fall through,
a string (even the empty one) wins. -/
def coalesce (v : JsVal) (fallback : Option String) : Option String :=
  match v with
  | .str s => some s
  | .undef => fallback
  | .null => fallback

/-- JavaScript truthiness of a nullable string: `null` and `""` are falsy. -/
def truthy (v : Option String) : Bool :=
  match v with
  | none => false
  | some s => !(s = "")

/-- JavaScript `v || d` on a nullable string: falsy (`null` or `""`) picks `d`. -/
def jsOrStr (v : Option String) (d : String) : String :=
  match v with
  | none => d
  | some s => if s = "" then d else s

/-- The D1 `bins` table: rows keyed by `bin_id`. -/
abbrev Store : Type := List (String × BinRow)

/-- `SELECT * FROM bins WHERE bin_id = ?` followed by `.first()`:
first row whose key matches, else null. -/
def getBinRow : Store → String → Option BinRow
  | [], _ => none
  | (k, r) :: rest, binId => if k = binId then some r else getBinRow rest binId

/-- `UPDATE bins SET case_code = ?, bin_type = ?, notes = ?, photo_key = ?,
updated_at = ? WHERE bin_id = ?`: rewrites exactly those five columns on every
matching row; the `bin_id` column is untouched. -/
def updateRows : Store → String → Option String → Option String → Option String →
    Option String → Nat → Store
  | [], _, _, _, _, _, _ => []
  | (k, r) :: rest, binId, cc, bt, nt, pk, now =>
      (k, if k = binId then
            { r with case_code := cc, bin_type := bt, notes := nt,
                     photo_key := pk, updated_at := now }
          else r) :: updateRows rest binId cc bt nt pk now

/-- The partial field set handed to `upsertBinRow` (the `data` argument):
each recognised field is a JS property, possibly absent. -/
structure UpsertData where
  case_code : JsVal
  bin_type : JsVal
  notes : JsVal
  photo_key : JsVal
  deriving DecidableEq, Repr

/-- `upsertBinRow(env, binId, data)`: reads the existing row, resolves each
field with `data.f ?? existing?.f ?? null`, then UPDATEs in place or INSERTs a
fresh row, and returns the re-fetched row.  `now` stands for `Date.now()`. -/
def upsertBinRow (st : Store) (binId : String) (data : UpsertData) (now : Nat) :
    Store × Option BinRow :=
  let existing := getBinRow st binId
  let case_code := coalesce data.case_code (existing.bind BinRow.case_code)
  let bin_type := coalesce data.bin_type (existing.bind BinRow.bin_type)
  let notes := coalesce data.notes (existing.bind BinRow.notes)
  let photo_key := coalesce data.photo_key (existing.bind BinRow.photo_key)
  let st' :=
    match existing with
    | some _ => updateRows st binId case_code bin_type notes photo_key now
    | none =>
        (binId, { bin_id := binId, case_code := case_code, bin_type := bin_type,
                  notes := notes, photo_key := photo_key, updated_at := now }) :: st
  (st', getBinRow st' binId)

/-! ## String helpers: `encodeURIComponent`, decimal rendering, photo keys -/

/-- Characters `encodeURIComponent` leaves unescaped:
`A-Z a-z 0-9 - _ . ! ~ * ' ( )`. -/
def isUnreservedChar (c : Char) : Bool :=
  (decide (65 ≤ c.toNat) && decide (c.toNat ≤ 90)) ||
  (decide (97 ≤ c.toNat) && decide (c.toNat ≤ 122)) ||
  (decide (48 ≤ c.toNat) && decide (c.toNat ≤ 57)) ||
  c = '-' || c = '_' || c = '.' || c = '!' || c = '~' || c = '*' ||
  c = Char.ofNat 39 || c = '(' || c = ')'

/-- Uppercase hexadecimal digit (argument taken below 16 at all call sites). -/
def hexDigitChar (n : Nat) : Char :=
  if n < 10 then Char.ofNat (48 + n) else Char.ofNat (55 + n)

/-- UTF-8 bytes of a character (as `Nat`s below 256). -/
def utf8Bytes (c : Char) : List Nat :=
  let n := c.toNat
  if n < 128 then [n]
  else if n < 2048 then [192 ||| (n >>> 6), 128 ||| (n &&& 63)]
  else if n < 65536 then
    [224 ||| (n >>> 12), 128 ||| ((n >>> 6) &&& 63), 128 ||| (n &&& 63)]
  else
    [240 ||| (n >>> 18), 128 ||| ((n >>> 12) &&& 63),
     128 ||| ((n >>> 6) &&& 63), 128 ||| (n &&& 63)]

/-- Percent-encoding of one byte, uppercase hex as `encodeURIComponent` emits. -/
def pctEncodeByte (b : Nat) : List Char :=
  ['%', hexDigitChar (b / 16), hexDigitChar (b % 16)]

/-- `encodeURIComponent(c)` for a single character. -/
def encChar (c : Char) : List Char :=
  if isUnreservedChar c then [c] else (utf8Bytes c).flatMap pctEncodeByte

/-- JavaScript `encodeURIComponent`. -/
def encodeURIComponent (s : String) : String :=
  ⟨s.data.flatMap encChar⟩

/-- Decimal rendering helper: structural recursion on a fuel bound (`n + 1`
steps always suffice), emitting digits most significant first. -/
def natDecCharsAux : Nat → Nat → List Char
  | 0, _ => []
  | fuel + 1, n =>
      if n < 10 then [Char.ofNat (48 + n)]
      else natDecCharsAux fuel (n / 10) ++ [Char.ofNat (48 + n % 10)]

/-- Decimal digit characters of `n`, most significant first — JavaScript
number-to-string for the integers used here (`Date.now()` timestamps). -/
def natDecChars (n : Nat) : List Char :=
  natDecCharsAux (n + 1) n

/-- Decimal string of `n`, as interpolated by a JS template literal. -/
def natDecStr (n : Nat) : String :=
  ⟨natDecChars n⟩

/-- The blob key generated by the photo POST handler:
`bins/${encodeURIComponent(binId)}/${timestamp}.img`. -/
def mkPhotoKey (binId : String) (timestamp : Nat) : String :=
  "bins/" ++ encodeURIComponent binId ++ "/" ++ natDecStr timestamp ++ ".img"

/-- The derived photo URL `/bin/${encodeURIComponent(binId)}/photo`. -/
def photoUrl (binId : String) : String :=
  "/bin/" ++ encodeURIComponent binId ++ "/photo"

/-- `escapeHtml`: the four successive `String.replace` calls of the source. -/
def escapeHtml (s : String) : String :=
  (((s.replace "&" "&amp;").replace "<" "&lt;").replace ">" "&gt;").replace "\"" "&quot;"

/-! ## Blob store (R2 bucket) and system state -/

/-- An object in the R2 bucket: raw bytes plus `httpMetadata`. -/
structure BlobObj where
  body : List Nat
  contentType : Option String
  cacheControl : Option String
  deriving DecidableEq, Repr

/-- The R2 bucket, keyed by blob key; `put` prepends, `get` takes the first
match, so a repeated key replaces the visible content. -/
abbrev BlobStore : Type := List (String × BlobObj)

/-- `env.BINS_BUCKET.get(key)`. -/
def getBlob : BlobStore → String → Option BlobObj
  | [], _ => none
  | (k, o) :: rest, key => if k = key then some o else getBlob rest key

/-- The worker's persistent state: the D1 table and the R2 bucket. -/
structure Sys where
  rows : Store
  blobs : BlobStore
  deriving DecidableEq, Repr

/-- The empty initial state. -/
def Sys.empty : Sys := ⟨[], []⟩

/-! ## Responses -/

/-- Serialized response bodies.  Each JSON constructor mirrors, field for
field, the object literal built at the corresponding place in the source. -/
inductive Body where
  | text (s : String)
  | jsonNotFound (bin_id message : String)
  | jsonOk (bin_id : String) (case_code bin_type notes photo_url : Option String)
      (updated_at : Nat)
  | jsonErr (error : String)
  | jsonUpserted (status : String) (bin : Option BinRow)
  | jsonPhotoPosted (status bin_id photo_key photo_url : String) (bin : Option BinRow)
  | page (s : String)
  | blob (bytes : List Nat)
  deriving DecidableEq, Repr

/-- An HTTP response: status plus the headers this worker ever sets. -/
structure Resp where
  status : Nat
  contentType : Option String
  cacheControl : Option String
  body : Body
  deriving DecidableEq, Repr

/-- `jsonResponse(obj, status)`. -/
def jsonResp (b : Body) (status : Nat) : Resp :=
  ⟨status, some "application/json; charset=utf-8", none, b⟩

/-- A bare `new Response(text, { status })`. -/
def textResp (status : Nat) (s : String) : Resp :=
  ⟨status, none, none, .text s⟩

/-- An HTML response. -/
def htmlResp (status : Nat) (s : String) : Resp :=
  ⟨status, some "text/html; charset=utf-8", none, .page s⟩

/-! ## Handlers -/

/-- `GET /api/bin/{id}` and `GET /bin/{id}?format=json`: `handleBinJsonGet`.
`photo_url` is `row.photo_key ? url : null`, JS truthiness. -/
def handleBinJsonGet (σ : Sys) (binId : String) : Resp :=
  match getBinRow σ.rows binId with
  | none => jsonResp (.jsonNotFound binId "Bin not registered yet") 404
  | some row =>
      jsonResp (.jsonOk row.bin_id row.case_code row.bin_type row.notes
        (if truthy row.photo_key then some (photoUrl binId) else none)
        row.updated_at) 200

/-- `GET /bin/{id}`: `handleBinHtmlGet`, rendering the landing page. -/
def handleBinHtmlGet (σ : Sys) (binId : String) : Resp :=
  match getBinRow σ.rows binId with
  | none =>
      htmlResp 404
        ("\n<!doctype html>\n<html>\n<head><meta charset=\"utf-8\"><title>Bin "
          ++ escapeHtml binId ++ "</title></head>\n<body>\n    <h2>Bin "
          ++ escapeHtml binId
          ++ "</h2>\n    <p>This bin is not registered yet.</p>\n</body>\n</html>")
  | some row =>
      let title :=
        match row.case_code with
        | some s =>
            if s = "" then "Bin " ++ row.bin_id
            else "Bin " ++ row.bin_id ++ " – Case " ++ s
        | none => "Bin " ++ row.bin_id
      let imgTag :=
        if truthy row.photo_key then
          "<img src=\"/bin/" ++ encodeURIComponent binId
            ++ "/photo\" style=\"max-width:100%;height:auto;\" alt=\"Bin photo\">"
        else "<p><em>No photo uploaded yet.</em></p>"
      let caseLine :=
        match row.case_code with
        | some s =>
            if s = "" then ""
            else "<p><strong>Case:</strong> " ++ escapeHtml s ++ "</p>"
        | none => ""
      htmlResp 200
        ("\n<!doctype html>\n<html>\n<head>\n    <meta charset=\"utf-8\">\n    <title>"
          ++ escapeHtml title ++ "</title>\n</head>\n<body>\n    <h2>"
          ++ escapeHtml title ++ "</h2>\n    <p><strong>Bin type:</strong> "
          ++ escapeHtml (jsOrStr row.bin_type "-")
          ++ "</p>\n    <p><strong>Notes:</strong> "
          ++ escapeHtml (jsOrStr row.notes "-") ++ "</p>\n    "
          ++ caseLine ++ "\n    " ++ imgTag ++ "\n</body>\n</html>")

/-- A parsed JSON request body, as the properties the handler reads off it.
`photo_key` is carried to show the handler never forwards it. -/
structure JsBody where
  case_code : JsVal
  bin_type : JsVal
  notes : JsVal
  photo_key : JsVal
  deriving DecidableEq, Repr

/-- `POST /bin/{id}`: `handleBinMetaPost`.  `body = none` models
`request.json()` throwing; the handler forwards only `case_code`, `bin_type`
and `notes` to the upsert. -/
def handleBinMetaPost (σ : Sys) (binId : String) (body : Option JsBody) (now : Nat) :
    Sys × Resp :=
  match body with
  | none =>
      (σ, jsonResp (.jsonErr "Expected JSON body with fields case_code/bin_type/notes") 400)
  | some b =>
      let data : UpsertData :=
        { case_code := b.case_code, bin_type := b.bin_type, notes := b.notes,
          photo_key := .undef }
      let res := upsertBinRow σ.rows binId data now
      ({ σ with rows := res.1 }, jsonResp (.jsonUpserted "ok" res.2) 200)

/-- `POST /bin/{id}/photo`: `handleBinPhotoPost`.  Stores the blob under a
fresh timestamped key, then upserts `photo_key` on the row. -/
def handleBinPhotoPost (σ : Sys) (binId : String) (ctHeader : Option String)
    (rawBody : List Nat) (now : Nat) : Sys × Resp :=
  let contentType := jsOrStr ctHeader "application/octet-stream"
  let key := mkPhotoKey binId now
  let blobs' : BlobStore := (key, ⟨rawBody, some contentType, none⟩) :: σ.blobs
  let res := upsertBinRow σ.rows binId ⟨.undef, .undef, .undef, .str key⟩ now
  (⟨res.1, blobs'⟩,
    jsonResp (.jsonPhotoPosted "ok" binId key (photoUrl binId) res.2) 200)

/-- `GET /bin/{id}/photo`: `handleBinPhotoGet`.  404 when the row is absent or
`photo_key` falsy; 404 when the blob is absent; else streams the blob with
`contentType || "image/jpeg"` and cache-control passthrough when truthy. -/
def handleBinPhotoGet (σ : Sys) (binId : String) : Resp :=
  match getBinRow σ.rows binId with
  | none => textResp 404 "No photo for this bin"
  | some row =>
      match row.photo_key with
      | none => textResp 404 "No photo for this bin"
      | some k =>
          if k = "" then textResp 404 "No photo for this bin"
          else
            match getBlob σ.blobs k with
            | none => textResp 404 "Photo object not found"
            | some o =>
                { status := 200,
                  contentType := some (jsOrStr o.contentType "image/jpeg"),
                  cacheControl := if truthy o.cacheControl then o.cacheControl else none,
                  body := .blob o.body }

/-! ## Router -/

/-- An incoming request, reduced to what the worker reads off it.
`jsonBody = none` stands for a body `request.json()` rejects. -/
structure Request where
  method : String
  pathname : String
  formatParam : Option String
  jsonBody : Option JsBody
  contentTypeHeader : Option String
  rawBody : List Nat
  deriving DecidableEq, Repr

/-- `split("/")` at the character level (structural, so proofs can evaluate
it): `acc` holds the current segment's characters in reverse. -/
def splitSlashAux : List Char → List Char → List (List Char)
  | [], acc => [acc.reverse]
  | c :: rest, acc =>
      if c = '/' then acc.reverse :: splitSlashAux rest []
      else splitSlashAux rest (c :: acc)

/-- Path normalisation: the source strips a leading/trailing slash, splits on
`/` and filters empty segments; splitting then filtering is the same. -/
def segmentsOf (pathname : String) : List String :=
  ((splitSlashAux pathname.data []).map fun l => (⟨l⟩ : String)).filter fun s => !(s = "")

/-- The exported `fetch` dispatcher, transcribing the nested conditionals of
the source: the `api`/`bin` prefix check, the `photo` sub-route by index 2,
the two-segment `bin` route, and the fall-through 404. -/
def fetch (σ : Sys) (req : Request) (now : Nat) : Sys × Resp :=
  match segmentsOf req.pathname with
  | [] => (σ, textResp 200 "Smart Bin Worker online")
  | "api" :: "bin" :: id :: _ =>
      if req.method = "GET" then (σ, handleBinJsonGet σ id)
      else (σ, textResp 405 "Method not allowed")
  | "bin" :: id :: rest =>
      match rest with
      | "photo" :: _ =>
          if req.method = "GET" then (σ, handleBinPhotoGet σ id)
          else if req.method = "POST" then
            handleBinPhotoPost σ id req.contentTypeHeader req.rawBody now
          else (σ, textResp 405 "Method not allowed")
      | [] =>
          if req.method = "GET" then
            (if jsOrStr req.formatParam "html" = "json" then (σ, handleBinJsonGet σ id)
             else (σ, handleBinHtmlGet σ id))
          else if req.method = "POST" then handleBinMetaPost σ id req.jsonBody now
          else (σ, textResp 404 "Not found")
      | _ :: _ => (σ, textResp 404 "Not found")
  | _ => (σ, textResp 404 "Not found")

/-! ## Reachable states and the photo-key invariant -/

/-- One request against the worker, with the ambient `Date.now()` value for
the operations that read the clock. -/
inductive Op where
  | metaPost (binId : String) (body : Option JsBody) (now : Nat)
  | photoPost (binId : String) (ctHeader : Option String) (rawBody : List Nat) (now : Nat)
  | jsonGet (binId : String)
  | htmlGet (binId : String)
  | photoGet (binId : String)
  | health

/-- The state after one operation; read-only requests leave it unchanged. -/
def applyOp (σ : Sys) : Op → Sys
  | .metaPost binId body now => (handleBinMetaPost σ binId body now).1
  | .photoPost binId ct rb now => (handleBinPhotoPost σ binId ct rb now).1
  | .jsonGet _ => σ
  | .htmlGet _ => σ
  | .photoGet _ => σ
  | .health => σ

/-- States reachable from the empty stores by any sequence of requests. -/
inductive Reachable : Sys → Prop where
  | init : Reachable Sys.empty
  | step (σ : Sys) (op : Op) : Reachable σ → Reachable (applyOp σ op)

/-- The invariant behind JS truthiness on `photo_key`: no stored row ever
holds the empty string there (keys are either null or `bins/...img`). -/
def rowsWF (st : Store) : Prop :=
  ∀ p ∈ st, p.2.photo_key ≠ some ""

instance (st : Store) : Decidable (rowsWF st) := by
  unfold rowsWF; infer_instance

/-- Reads a decimal digit string back as a number. -/
def decodeDecChars (l : List Char) : Nat :=
  l.foldl (fun acc c => acc * 10 + (c.toNat - 48)) 0

/-- The row `upsertBinRow` resolves and writes: field-by-field nullish
coalescing against the fetched row; `UPDATE` keeps the stored `bin_id`
column, `INSERT` sets it to the lookup key. -/
def mergedRow (st : Store) (binId : String) (data : UpsertData) (now : Nat) : BinRow :=
  match getBinRow st binId with
  | some r =>
      { bin_id := r.bin_id,
        case_code := coalesce data.case_code r.case_code,
        bin_type := coalesce data.bin_type r.bin_type,
        notes := coalesce data.notes r.notes,
        photo_key := coalesce data.photo_key r.photo_key,
        updated_at := now }
  | none =>
      { bin_id := binId,
        case_code := coalesce data.case_code none,
        bin_type := coalesce data.bin_type none,
        notes := coalesce data.notes none,
        photo_key := coalesce data.photo_key none,
        updated_at := now }


/-- The field-merge rule in the words of the (amended) spec claim: a field
key present with a string value (including the empty string) overwrites; a
key present with JSON null is treated like an absent key; otherwise the
existing record's value if a record existed (`old = some v`), else null
(`old = none`). -/
def claimMergeField (provided : JsVal) (old : Option (Option String)) : Option String :=
  match provided with
  | .str s => some s
  | .null => old.getD none
  | .undef => old.getD none

/-- The path shapes the dispatcher hands to a handler or a 405 check: the
health root, the `api/bin` prefix, the two-segment `bin` route, and the
`bin/{id}/photo` prefix.  Everything else falls through to the plain 404. -/
def routePrefixMatched (segs : List String) : Bool :=
  match segs with
  | [] => true
  | "api" :: "bin" :: _ :: _ => true
  | "bin" :: _ :: [] => true
  | "bin" :: _ :: "photo" :: _ => true
  | _ => false

/-! ## Store lemmas -/

theorem getBinRow_updateRows (st : Store) (binId : String)
    (cc bt nt pk : Option String) (now : Nat) (k : String) :
    getBinRow (updateRows st binId cc bt nt pk now) k =
      if k = binId then
        (getBinRow st k).map fun r =>
          { r with case_code := cc, bin_type := bt, notes := nt,
                   photo_key := pk, updated_at := now }
      else getBinRow st k := by
  induction st with
  | nil => simp [updateRows, getBinRow]
  | cons p rest ih =>
      obtain ⟨a, r⟩ := p
      simp only [updateRows, getBinRow]
      by_cases h2 : a = k
      · subst h2
        simp only [if_pos rfl]
        by_cases h1 : a = binId
        · subst h1; simp
        · simp [h1]
      · simp only [if_neg h2, ih]

theorem getBinRow_upsert_self (st : Store) (binId : String) (data : UpsertData)
    (now : Nat) :
    getBinRow (upsertBinRow st binId data now).1 binId =
      some (mergedRow st binId data now) := by
  cases h : getBinRow st binId with
  | none => simp [upsertBinRow, mergedRow, h, getBinRow]
  | some r => simp [upsertBinRow, mergedRow, h, getBinRow_updateRows]

theorem upsertBinRow_snd (st : Store) (binId : String) (data : UpsertData)
    (now : Nat) :
    (upsertBinRow st binId data now).2 = some (mergedRow st binId data now) := by
  have h2 : (upsertBinRow st binId data now).2 =
      getBinRow (upsertBinRow st binId data now).1 binId := by
    cases h : getBinRow st binId <;> simp [upsertBinRow, h]
  rw [h2, getBinRow_upsert_self]

theorem getBinRow_upsert_other (st : Store) (binId : String) (data : UpsertData)
    (now : Nat) (k : String) (hk : k ≠ binId) :
    getBinRow (upsertBinRow st binId data now).1 k = getBinRow st k := by
  cases h : getBinRow st binId with
  | none => simp [upsertBinRow, h, getBinRow, Ne.symm hk]
  | some r => simp [upsertBinRow, h, getBinRow_updateRows, hk]

theorem getBinRow_mem (st : Store) (k : String) (r : BinRow)
    (h : getBinRow st k = some r) : (k, r) ∈ st := by
  induction st with
  | nil => simp [getBinRow] at h
  | cons p rest ih =>
      obtain ⟨a, r'⟩ := p
      by_cases ha : a = k
      · subst ha
        simp [getBinRow] at h
        simp [h]
      · simp [getBinRow, ha] at h
        exact List.mem_cons_of_mem _ (ih h)

theorem mkPhotoKey_ne_empty (binId : String) (t : Nat) : mkPhotoKey binId t ≠ "" := by
  intro h
  have hl := congrArg String.length h
  rw [mkPhotoKey] at hl
  simp only [String.length_append] at hl
  have h5 : ("bins/" : String).length = 5 := rfl
  have h0 : ("" : String).length = 0 := rfl
  omega

theorem mem_updateRows (st : Store) (binId : String) (cc bt nt pk : Option String)
    (now : Nat) (p : String × BinRow)
    (hp : p ∈ updateRows st binId cc bt nt pk now) :
    p.2.photo_key = pk ∨ p ∈ st := by
  induction st with
  | nil => simp [updateRows] at hp
  | cons q rest ih =>
      obtain ⟨a, r⟩ := q
      by_cases ha : a = binId <;> simp [updateRows, ha] at hp
      · rcases hp with hp | hp
        · subst hp; left; rfl
        · rcases ih hp with h1 | h1
          · exact Or.inl h1
          · exact Or.inr (List.mem_cons_of_mem _ h1)
      · rcases hp with hp | hp
        · subst hp; exact Or.inr (List.mem_cons_self _ _)
        · rcases ih hp with h1 | h1
          · exact Or.inl h1
          · exact Or.inr (List.mem_cons_of_mem _ h1)

theorem rowsWF_upsert (st : Store) (binId : String) (data : UpsertData) (now : Nat)
    (h : rowsWF st) (hd : ∀ s, data.photo_key = JsVal.str s → s ≠ "") :
    rowsWF (upsertBinRow st binId data now).1 := by
  intro p hp
  cases hrow : getBinRow st binId with
  | none =>
      simp [upsertBinRow, hrow] at hp
      rcases hp with hp | hp
      · subst hp
        cases hpk : data.photo_key <;> simp [coalesce, hpk]
        exact hd _ hpk
      · exact h _ hp
  | some r =>
      simp only [upsertBinRow, hrow] at hp
      rcases mem_updateRows _ _ _ _ _ _ _ _ hp with h1 | h1
      · rw [h1]
        have hr := h _ (getBinRow_mem st binId r hrow)
        cases hpk : data.photo_key <;> simp [coalesce, hpk]
        · exact fun e => hr (by simp [e])
        · exact fun e => hr (by simp [e])
        · exact hd _ hpk
      · exact h _ h1

theorem reachable_rowsWF (σ : Sys) (h : Reachable σ) : rowsWF σ.rows := by
  induction h with
  | init => intro p hp; simp [Sys.empty] at hp
  | step σ' op _ ih =>
      cases op with
      | metaPost binId body now =>
          cases body with
          | none => exact ih
          | some b =>
              simp only [applyOp, handleBinMetaPost]
              exact rowsWF_upsert _ _ _ _ ih (by intro s hs; cases hs)
      | photoPost binId ct rb now =>
          simp only [applyOp, handleBinPhotoPost]
          refine rowsWF_upsert _ _ _ _ ih ?_
          intro s hs
          injection hs with h'
          subst h'
          exact mkPhotoKey_ne_empty _ _
      | jsonGet binId => exact ih
      | htmlGet binId => exact ih
      | photoGet binId => exact ih
      | health => exact ih

/-! ## Injectivity of the generated photo keys in the timestamp -/

theorem toNat_digitChar : ∀ d, d < 10 → (Char.ofNat (48 + d)).toNat = 48 + d := by decide

theorem decodeDecChars_aux : ∀ fuel n, n < fuel →
    decodeDecChars (natDecCharsAux fuel n) = n := by
  intro fuel
  induction fuel with
  | zero => intro n h; omega
  | succ f ih =>
      intro n hn
      by_cases h10 : n < 10
      · simp [natDecCharsAux, h10, decodeDecChars, toNat_digitChar n h10]
      · have hdiv : n / 10 < f := by
          have h1 : n / 10 < n := Nat.div_lt_self (by omega) (by omega)
          omega
        simp only [natDecCharsAux, if_neg h10]
        unfold decodeDecChars
        rw [List.foldl_append]
        have hrec := ih (n / 10) hdiv
        unfold decodeDecChars at hrec
        rw [hrec]
        simp only [List.foldl_cons, List.foldl_nil, toNat_digitChar (n % 10) (by omega)]
        omega

theorem natDecChars_inj (m n : Nat) (h : natDecChars m = natDecChars n) : m = n := by
  have h1 := decodeDecChars_aux (m + 1) m (by omega)
  have h2 := decodeDecChars_aux (n + 1) n (by omega)
  unfold natDecChars at h
  rw [h] at h1
  rw [h2] at h1
  exact h1.symm

theorem hexDigitChar_ne_slash : ∀ n, n < 16 → hexDigitChar n ≠ '/' := by decide

theorem char_toNat_lt (c : Char) : c.toNat < 1114112 := by
  have := c.valid
  rcases this with h | ⟨h1, h2⟩ <;> simp [Char.toNat] <;> omega

theorem byte_or_lt (x y : Nat) (hx : x < 256) (hy : y < 256) : x ||| y < 256 := by
  have h8 : (256 : Nat) = 2 ^ 8 := by norm_num
  rw [h8] at hx hy ⊢
  exact Nat.or_lt_two_pow hx hy

theorem utf8Bytes_lt (c : Char) : ∀ b ∈ utf8Bytes c, b < 256 := by
  intro b hb
  have hc := char_toNat_lt c
  have hshift6 : c.toNat >>> 6 = c.toNat / 64 := by
    rw [Nat.shiftRight_eq_div_pow]
  have hshift12 : c.toNat >>> 12 = c.toNat / 4096 := by
    rw [Nat.shiftRight_eq_div_pow]
  have hshift18 : c.toNat >>> 18 = c.toNat / 262144 := by
    rw [Nat.shiftRight_eq_div_pow]
  have hand : ∀ x : Nat, x &&& 63 ≤ 63 := fun x => Nat.and_le_right
  unfold utf8Bytes at hb
  by_cases h1 : c.toNat < 128 <;> simp [h1] at hb
  · omega
  · by_cases h2 : c.toNat < 2048 <;> simp [h2] at hb
    · rcases hb with hb | hb <;> subst hb
      · exact byte_or_lt _ _ (by omega) (by rw [hshift6]; omega)
      · exact byte_or_lt _ _ (by omega) (by have := hand c.toNat; omega)
    · by_cases h3 : c.toNat < 65536 <;> simp [h3] at hb
      · rcases hb with hb | hb | hb <;> subst hb
        · exact byte_or_lt _ _ (by omega) (by rw [hshift12]; omega)
        · exact byte_or_lt _ _ (by omega) (by have := hand (c.toNat >>> 6); omega)
        · exact byte_or_lt _ _ (by omega) (by have := hand c.toNat; omega)
      · rcases hb with hb | hb | hb | hb <;> subst hb
        · exact byte_or_lt _ _ (by omega) (by rw [hshift18]; omega)
        · exact byte_or_lt _ _ (by omega) (by have := hand (c.toNat >>> 12); omega)
        · exact byte_or_lt _ _ (by omega) (by have := hand (c.toNat >>> 6); omega)
        · exact byte_or_lt _ _ (by omega) (by have := hand c.toNat; omega)

theorem pctEncodeByte_ne_slash (b : Nat) (hb : b < 256) :
    ∀ c ∈ pctEncodeByte b, c ≠ '/' := by
  intro c hc
  simp [pctEncodeByte] at hc
  rcases hc with hc | hc | hc <;> subst hc
  · decide
  · exact hexDigitChar_ne_slash _ (by omega)
  · exact hexDigitChar_ne_slash _ (by omega)

theorem encChar_ne_slash (c : Char) : ∀ x ∈ encChar c, x ≠ '/' := by
  intro x hx
  unfold encChar at hx
  by_cases h : isUnreservedChar c = true <;> simp [h] at hx
  · subst hx
    intro he
    rw [he] at h
    exact absurd h (by decide)
  · obtain ⟨b, hb, hxb⟩ := hx
    exact pctEncodeByte_ne_slash b (utf8Bytes_lt c b hb) x hxb

theorem enc_data_ne_slash (s : String) :
    ∀ x ∈ (encodeURIComponent s).data, x ≠ '/' := by
  intro x hx
  simp only [encodeURIComponent, List.mem_flatMap] at hx
  obtain ⟨c, _, hxc⟩ := hx
  exact encChar_ne_slash c x hxc

theorem append_eq_of_sep (sep : Char) :
    ∀ (e1 e2 t1 t2 : List Char), (∀ c ∈ e1, c ≠ sep) → (∀ c ∈ e2, c ≠ sep) →
      e1 ++ sep :: t1 = e2 ++ sep :: t2 → e1 = e2 ∧ t1 = t2 := by
  intro e1
  induction e1 with
  | nil =>
      intro e2 t1 t2 _ h2 h
      cases e2 with
      | nil => simpa using h
      | cons b tb =>
          simp only [List.nil_append, List.cons_append, List.cons.injEq] at h
          exact absurd h.1.symm (h2 b (by simp))
  | cons a ta ih =>
      intro e2 t1 t2 h1 h2 h
      cases e2 with
      | nil =>
          simp only [List.nil_append, List.cons_append, List.cons.injEq] at h
          exact absurd h.1 (h1 a (by simp))
      | cons b tb =>
          simp only [List.cons_append, List.cons.injEq] at h
          obtain ⟨hab, ht⟩ := h
          obtain ⟨he, htt⟩ := ih tb t1 t2 (fun c hc => h1 c (by simp [hc]))
            (fun c hc => h2 c (by simp [hc])) ht
          exact ⟨by rw [hab, he], htt⟩

theorem mkPhotoKey_inj_timestamp (b1 : String) (t1 : Nat) (b2 : String) (t2 : Nat)
    (h : mkPhotoKey b1 t1 = mkPhotoKey b2 t2) : t1 = t2 := by
  have hd := congrArg String.data h
  rw [mkPhotoKey, mkPhotoKey] at hd
  simp only [String.data_append, List.append_assoc] at hd
  simp only [show ∀ t, (natDecStr t).data = natDecChars t from fun t => rfl] at hd
  simp only [List.cons_append, List.nil_append, List.cons.injEq, true_and] at hd
  obtain ⟨-, ht⟩ := append_eq_of_sep '/' _ _ _ _
    (enc_data_ne_slash b1) (enc_data_ne_slash b2) hd
  exact natDecChars_inj _ _ (List.append_cancel_right ht)

theorem getBlob_cons_other (bs : BlobStore) (key k : String) (o : BlobObj)
    (hk : k ≠ key) : getBlob ((key, o) :: bs) k = getBlob bs k := by
  simp [getBlob, Ne.symm hk]

theorem truthy_eq_isSome (v : Option String) (hv : v ≠ some "") :
    truthy v = v.isSome := by
  cases v with
  | none => rfl
  | some s =>
      have hs : ¬ s = "" := fun e => hv (by rw [e])
      simp [truthy, hs]

/-! ## Claims -/

/-- Claim C1, counterexample.  The claim says presence of the key in the
payload decides the overwrite; but a `case_code` key present with value
null is swallowed by `??` and the old value `"X"` survives, where the claim
demands the stored value equal the provided null. -/
theorem claim_C1_counterexample :
    ¬ ((getBinRow (upsertBinRow
          [("b1", { bin_id := "b1", case_code := some "X", bin_type := none,
                    notes := none, photo_key := none, updated_at := 1 })]
          "b1"
          { case_code := JsVal.null, bin_type := JsVal.undef, notes := JsVal.undef,
            photo_key := JsVal.undef } 5).1 "b1").map BinRow.case_code = some none) ∧
    (getBinRow (upsertBinRow
          [("b1", { bin_id := "b1", case_code := some "X", bin_type := none,
                    notes := none, photo_key := none, updated_at := 1 })]
          "b1"
          { case_code := JsVal.null, bin_type := JsVal.undef, notes := JsVal.undef,
            photo_key := JsVal.undef } 5).1 "b1").map BinRow.case_code =
      some (some "X") :=
  ⟨by decide, by decide⟩

/-- Claim C1 (amended).  For every upsert against the row store and each
recognised field: the stored value equals the provided value whenever the
key is present with a non-null value (including the empty string); a key
present with JSON null is treated like an absent key; otherwise the
existing record's value if a record existed, else null. -/
theorem claim_C1_field_merge (st : Store) (binId : String) (data : UpsertData)
    (now : Nat) :
    ∃ r, getBinRow (upsertBinRow st binId data now).1 binId = some r ∧
      r.case_code = claimMergeField data.case_code
        ((getBinRow st binId).map BinRow.case_code) ∧
      r.bin_type = claimMergeField data.bin_type
        ((getBinRow st binId).map BinRow.bin_type) ∧
      r.notes = claimMergeField data.notes
        ((getBinRow st binId).map BinRow.notes) ∧
      r.photo_key = claimMergeField data.photo_key
        ((getBinRow st binId).map BinRow.photo_key) := by
  refine ⟨mergedRow st binId data now, getBinRow_upsert_self st binId data now,
    ?_, ?_, ?_, ?_⟩
  · cases hG : getBinRow st binId <;> cases hv : data.case_code <;>
      simp [mergedRow, claimMergeField, coalesce, hG, hv]
  · cases hG : getBinRow st binId <;> cases hv : data.bin_type <;>
      simp [mergedRow, claimMergeField, coalesce, hG, hv]
  · cases hG : getBinRow st binId <;> cases hv : data.notes <;>
      simp [mergedRow, claimMergeField, coalesce, hG, hv]
  · cases hG : getBinRow st binId <;> cases hv : data.photo_key <;>
      simp [mergedRow, claimMergeField, coalesce, hG, hv]

/-- Claim C2.  A JSON GET returns 404 with the `not_found` body when no
record exists, else 200 with the `ok` body whose `photo_url` is non-null
exactly when the record's `photo_key` is set.  The hypothesis is the store
invariant (established for every reachable state by `reachable_rowsWF`)
that no stored `photo_key` is the empty string. -/
theorem claim_C2_json_get (σ : Sys) (binId : String) (h : rowsWF σ.rows) :
    (getBinRow σ.rows binId = none →
      handleBinJsonGet σ binId =
        jsonResp (Body.jsonNotFound binId "Bin not registered yet") 404) ∧
    (∀ r, getBinRow σ.rows binId = some r →
      handleBinJsonGet σ binId =
        jsonResp (Body.jsonOk r.bin_id r.case_code r.bin_type r.notes
          (if r.photo_key.isSome then some (photoUrl binId) else none)
          r.updated_at) 200) := by
  constructor
  · intro h0
    simp [handleBinJsonGet, h0]
  · intro r hr
    have hpk : r.photo_key ≠ some "" := h _ (getBinRow_mem _ _ _ hr)
    simp [handleBinJsonGet, hr, truthy_eq_isSome _ hpk]

/-- Claim C2, witness at a reachable-shaped store with one row. -/
theorem claim_C2_witness :
    handleBinJsonGet
        ⟨[("b1", { bin_id := "b1", case_code := some "C", bin_type := none,
                   notes := none, photo_key := some "bins/b1/3.img",
                   updated_at := 3 })], []⟩ "b1" =
      jsonResp (Body.jsonOk "b1" (some "C") none none
        (some (photoUrl "b1")) 3) 200 ∧
    handleBinJsonGet
        ⟨[("b1", { bin_id := "b1", case_code := some "C", bin_type := none,
                   notes := none, photo_key := some "bins/b1/3.img",
                   updated_at := 3 })], []⟩ "nope" =
      jsonResp (Body.jsonNotFound "nope" "Bin not registered yet") 404 :=
  ⟨(claim_C2_json_get
      ⟨[("b1", { bin_id := "b1", case_code := some "C", bin_type := none,
                 notes := none, photo_key := some "bins/b1/3.img",
                 updated_at := 3 })], []⟩ "b1" (by decide)).2
      { bin_id := "b1", case_code := some "C", bin_type := none,
        notes := none, photo_key := some "bins/b1/3.img", updated_at := 3 } rfl,
   (claim_C2_json_get
      ⟨[("b1", { bin_id := "b1", case_code := some "C", bin_type := none,
                 notes := none, photo_key := some "bins/b1/3.img",
                 updated_at := 3 })], []⟩ "nope" (by decide)).1 rfl⟩

/-- Claim C3.  A POST to `/bin/{id}` whose body does not parse as JSON gets
a 400 with an error message and leaves the whole row store (and blob store)
untouched: the returned state is exactly the input state. -/
theorem claim_C3_bad_json_post (σ : Sys) (req : Request) (now : Nat) (id : String)
    (hseg : segmentsOf req.pathname = ["bin", id])
    (hm : req.method = "POST") (hb : req.jsonBody = none) :
    fetch σ req now =
      (σ, jsonResp
        (Body.jsonErr "Expected JSON body with fields case_code/bin_type/notes")
        400) := by
  unfold fetch
  rw [hseg]
  simp only [hm, hb]
  rfl

/-- Claim C3, witness: a concrete unparseable POST to `/bin/x`. -/
theorem claim_C3_witness :
    fetch Sys.empty
        { method := "POST", pathname := "/bin/x", formatParam := none,
          jsonBody := none, contentTypeHeader := none, rawBody := [] } 0 =
      (Sys.empty, jsonResp
        (Body.jsonErr "Expected JSON body with fields case_code/bin_type/notes")
        400) :=
  claim_C3_bad_json_post Sys.empty _ 0 "x" (by decide) rfl rfl

/-- Claim C10.  A metadata POST forwards only `case_code`, `bin_type` and
`notes`, so the `photo_key` seen through the store is unchanged for the
posted bin (even when the request body carries a `photo_key` property), and
rows of every other bin are untouched. -/
theorem claim_C10_meta_photo_key_frame (σ : Sys) (binId : String)
    (body : Option JsBody) (now : Nat) :
    ((getBinRow (handleBinMetaPost σ binId body now).1.rows binId).bind
        BinRow.photo_key =
      (getBinRow σ.rows binId).bind BinRow.photo_key) ∧
    (∀ k, k ≠ binId →
      getBinRow (handleBinMetaPost σ binId body now).1.rows k =
        getBinRow σ.rows k) := by
  constructor
  · cases body with
    | none => rfl
    | some b =>
        simp only [handleBinMetaPost]
        rw [getBinRow_upsert_self]
        cases hG : getBinRow σ.rows binId <;>
          simp [mergedRow, coalesce, hG]
  · intro k hk
    cases body with
    | none => rfl
    | some b =>
        simp only [handleBinMetaPost]
        exact getBinRow_upsert_other _ _ _ _ _ hk

/-- Claim C10, witness: the body even names `photo_key`, yet the stored
key survives, and an unrelated bin's row is untouched. -/
theorem claim_C10_witness :
    ((getBinRow (handleBinMetaPost
        ⟨[("b1", { bin_id := "b1", case_code := none, bin_type := none,
                   notes := none, photo_key := some "bins/b1/1.img",
                   updated_at := 1 })], []⟩ "b1"
        (some { case_code := JsVal.str "C2", bin_type := JsVal.undef,
                notes := JsVal.undef, photo_key := JsVal.str "evil" }) 9).1.rows
        "b1").bind BinRow.photo_key = some "bins/b1/1.img") ∧
    getBinRow (handleBinMetaPost
        ⟨[("b1", { bin_id := "b1", case_code := none, bin_type := none,
                   notes := none, photo_key := some "bins/b1/1.img",
                   updated_at := 1 })], []⟩ "b1"
        (some { case_code := JsVal.str "C2", bin_type := JsVal.undef,
                notes := JsVal.undef, photo_key := JsVal.str "evil" }) 9).1.rows
        "other" = none := by
  have h := claim_C10_meta_photo_key_frame
    ⟨[("b1", { bin_id := "b1", case_code := none, bin_type := none,
               notes := none, photo_key := some "bins/b1/1.img",
               updated_at := 1 })], []⟩ "b1"
    (some { case_code := JsVal.str "C2", bin_type := JsVal.undef,
            notes := JsVal.undef, photo_key := JsVal.str "evil" }) 9
  exact ⟨h.1.trans (by decide), (h.2 "other" (by decide)).trans (by decide)⟩

theorem mergedRow_updated_at (st : Store) (binId : String) (data : UpsertData)
    (now : Nat) : (mergedRow st binId data now).updated_at = now := by
  unfold mergedRow
  cases getBinRow st binId <;> rfl

/-- Claim C8.  Both write paths (metadata POST with a parsed body, photo
POST) stamp the stored record's `updated_at` with the current time; hence,
when the clock has not gone backwards since the previous write
(`r0.updated_at ≤ now`), the new `updated_at` is ≥ the previous one. -/
theorem claim_C8_updated_at (σ : Sys) (binId : String) (now : Nat) :
    (∀ b : JsBody, ∃ r,
        getBinRow (handleBinMetaPost σ binId (some b) now).1.rows binId = some r ∧
        r.updated_at = now) ∧
    (∀ ct rb, ∃ r,
        getBinRow (handleBinPhotoPost σ binId ct rb now).1.rows binId = some r ∧
        r.updated_at = now) ∧
    (∀ r0, getBinRow σ.rows binId = some r0 → r0.updated_at ≤ now →
      (∀ b r,
        getBinRow (handleBinMetaPost σ binId (some b) now).1.rows binId = some r →
        r0.updated_at ≤ r.updated_at) ∧
      (∀ ct rb r,
        getBinRow (handleBinPhotoPost σ binId ct rb now).1.rows binId = some r →
        r0.updated_at ≤ r.updated_at)) := by
  refine ⟨?_, ?_, ?_⟩
  · intro b
    refine ⟨mergedRow σ.rows binId
      { case_code := b.case_code, bin_type := b.bin_type, notes := b.notes,
        photo_key := JsVal.undef } now, ?_, mergedRow_updated_at _ _ _ _⟩
    simp only [handleBinMetaPost]
    exact getBinRow_upsert_self _ _ _ _
  · intro ct rb
    refine ⟨mergedRow σ.rows binId
      { case_code := JsVal.undef, bin_type := JsVal.undef, notes := JsVal.undef,
        photo_key := JsVal.str (mkPhotoKey binId now) } now, ?_,
      mergedRow_updated_at _ _ _ _⟩
    simp only [handleBinPhotoPost]
    exact getBinRow_upsert_self _ _ _ _
  · intro r0 h0 hle
    constructor
    · intro b r hr
      simp only [handleBinMetaPost] at hr
      rw [getBinRow_upsert_self] at hr
      injection hr with he
      rw [← he, mergedRow_updated_at]
      exact hle
    · intro ct rb r hr
      simp only [handleBinPhotoPost] at hr
      rw [getBinRow_upsert_self] at hr
      injection hr with he
      rw [← he, mergedRow_updated_at]
      exact hle

/-- Claim C8, witness: a record written at time 3, updated at time 9. -/
theorem claim_C8_witness :
    getBinRow (handleBinMetaPost
        ⟨[("b1", { bin_id := "b1", case_code := none, bin_type := none,
                   notes := none, photo_key := none, updated_at := 3 })], []⟩
        "b1"
        (some { case_code := JsVal.str "C", bin_type := JsVal.undef,
                notes := JsVal.undef, photo_key := JsVal.undef }) 9).1.rows
      "b1" =
      some { bin_id := "b1", case_code := some "C", bin_type := none,
             notes := none, photo_key := none, updated_at := 9 } ∧
    (3 : Nat) ≤ 9 := by
  refine ⟨by decide, ?_⟩
  exact ((claim_C8_updated_at
      ⟨[("b1", { bin_id := "b1", case_code := none, bin_type := none,
                 notes := none, photo_key := none, updated_at := 3 })], []⟩
      "b1" 9).2.2
      { bin_id := "b1", case_code := none, bin_type := none, notes := none,
        photo_key := none, updated_at := 3 } rfl (by decide)).1
      { case_code := JsVal.str "C", bin_type := JsVal.undef,
        notes := JsVal.undef, photo_key := JsVal.undef }
      { bin_id := "b1", case_code := some "C", bin_type := none, notes := none,
        photo_key := none, updated_at := 9 } (by decide)

/-- Claim C9.  From any reachable state, no operation deletes an existing
record, and the `bin_id` field of a record is never changed: after any
operation the same key still resolves to a record carrying the same
`bin_id`. -/
theorem claim_C9_no_delete_bin_id (σ : Sys) (h : Reachable σ) (op : Op)
    (k : String) (r : BinRow) (hr : getBinRow σ.rows k = some r) :
    ∃ r', getBinRow (applyOp σ op).rows k = some r' ∧ r'.bin_id = r.bin_id := by
  cases op with
  | metaPost binId body now =>
      cases body with
      | none => exact ⟨r, hr, rfl⟩
      | some b =>
          by_cases hk : k = binId
          · subst hk
            refine ⟨mergedRow σ.rows k
              { case_code := b.case_code, bin_type := b.bin_type,
                notes := b.notes, photo_key := JsVal.undef } now, ?_, ?_⟩
            · simp only [applyOp, handleBinMetaPost]
              exact getBinRow_upsert_self _ _ _ _
            · unfold mergedRow
              rw [hr]
          · refine ⟨r, ?_, rfl⟩
            simp only [applyOp, handleBinMetaPost]
            rw [getBinRow_upsert_other _ _ _ _ _ hk]
            exact hr
  | photoPost binId ct rb now =>
      by_cases hk : k = binId
      · subst hk
        refine ⟨mergedRow σ.rows k
          { case_code := JsVal.undef, bin_type := JsVal.undef,
            notes := JsVal.undef, photo_key := JsVal.str (mkPhotoKey k now) } now,
          ?_, ?_⟩
        · simp only [applyOp, handleBinPhotoPost]
          exact getBinRow_upsert_self _ _ _ _
        · unfold mergedRow
          rw [hr]
      · refine ⟨r, ?_, rfl⟩
        simp only [applyOp, handleBinPhotoPost]
        rw [getBinRow_upsert_other _ _ _ _ _ hk]
        exact hr
  | jsonGet binId => exact ⟨r, hr, rfl⟩
  | htmlGet binId => exact ⟨r, hr, rfl⟩
  | photoGet binId => exact ⟨r, hr, rfl⟩
  | health => exact ⟨r, hr, rfl⟩

/-- Claim C9, witness: a bin created by a metadata POST survives a photo
POST with its `bin_id` intact. -/
theorem claim_C9_witness :
    ∃ r', getBinRow (applyOp
        (applyOp Sys.empty (Op.metaPost "b1"
          (some { case_code := JsVal.str "C", bin_type := JsVal.undef,
                  notes := JsVal.undef, photo_key := JsVal.undef }) 3))
        (Op.photoPost "b1" none [7] 9)).rows "b1" = some r' ∧
      r'.bin_id = "b1" :=
  claim_C9_no_delete_bin_id _ (Reachable.step _ _ Reachable.init)
    (Op.photoPost "b1" none [7] 9) "b1"
    { bin_id := "b1", case_code := some "C", bin_type := none, notes := none,
      photo_key := none, updated_at := 3 } (by decide)

/-- Claim C6.  `GET /bin/{id}/photo` is 404 when there is no record or no
`photo_key`; 404 when the key resolves to no blob; otherwise 200 with the
blob bytes, the stored content type (default `image/jpeg`) and
cache-control passed through when (truthily) present.  The `rowsWF`
hypothesis is the reachable-state invariant from `reachable_rowsWF`. -/
theorem claim_C6_photo_get (σ : Sys) (binId : String) (h : rowsWF σ.rows) :
    ((getBinRow σ.rows binId = none ∨
        (∃ r, getBinRow σ.rows binId = some r ∧ r.photo_key = none)) →
      handleBinPhotoGet σ binId = textResp 404 "No photo for this bin") ∧
    (∀ r k, getBinRow σ.rows binId = some r → r.photo_key = some k →
      (getBlob σ.blobs k = none →
        handleBinPhotoGet σ binId = textResp 404 "Photo object not found") ∧
      (∀ o, getBlob σ.blobs k = some o →
        handleBinPhotoGet σ binId =
          { status := 200,
            contentType := some (jsOrStr o.contentType "image/jpeg"),
            cacheControl := if truthy o.cacheControl then o.cacheControl else none,
            body := Body.blob o.body })) := by
  constructor
  · rintro (h0 | ⟨r, hr, hpk⟩)
    · simp [handleBinPhotoGet, h0]
    · simp [handleBinPhotoGet, hr, hpk]
  · intro r k hr hk
    have hne : k ≠ "" := by
      have hm := h _ (getBinRow_mem _ _ _ hr)
      intro e
      exact hm (by rw [hk, e])
    constructor
    · intro hb
      simp [handleBinPhotoGet, hr, hk, hne, hb]
    · intro o hb
      simp [handleBinPhotoGet, hr, hk, hne, hb]

/-- Claim C6, witness: a stored photo streams back with its content type;
a bin without a record 404s. -/
theorem claim_C6_witness :
    handleBinPhotoGet
        ⟨[("b1", { bin_id := "b1", case_code := none, bin_type := none,
                   notes := none, photo_key := some "bins/b1/3.img",
                   updated_at := 3 })],
         [("bins/b1/3.img",
           { body := [9, 9], contentType := some "image/png",
             cacheControl := none })]⟩ "b1" =
      { status := 200, contentType := some "image/png", cacheControl := none,
        body := Body.blob [9, 9] } ∧
    handleBinPhotoGet
        ⟨[("b1", { bin_id := "b1", case_code := none, bin_type := none,
                   notes := none, photo_key := some "bins/b1/3.img",
                   updated_at := 3 })],
         [("bins/b1/3.img",
           { body := [9, 9], contentType := some "image/png",
             cacheControl := none })]⟩ "b2" =
      textResp 404 "No photo for this bin" := by
  constructor
  · exact ((claim_C6_photo_get
      ⟨[("b1", { bin_id := "b1", case_code := none, bin_type := none,
                 notes := none, photo_key := some "bins/b1/3.img",
                 updated_at := 3 })],
       [("bins/b1/3.img",
         { body := [9, 9], contentType := some "image/png",
           cacheControl := none })]⟩ "b1" (by decide)).2
      { bin_id := "b1", case_code := none, bin_type := none, notes := none,
        photo_key := some "bins/b1/3.img", updated_at := 3 }
      "bins/b1/3.img" rfl rfl).2
      { body := [9, 9], contentType := some "image/png", cacheControl := none }
      (by decide)
  · exact (claim_C6_photo_get
      ⟨[("b1", { bin_id := "b1", case_code := none, bin_type := none,
                 notes := none, photo_key := some "bins/b1/3.img",
                 updated_at := 3 })],
       [("bins/b1/3.img",
         { body := [9, 9], contentType := some "image/png",
           cacheControl := none })]⟩ "b2" (by decide)).1 (Or.inl rfl)

/-- Claim C4, counterexample.  The claim promises 405 on any known path
with a method outside its row of the route table, but `PUT /bin/x` falls
through to the plain 404, and `POST /` is answered 200 by the health check
before any method test. -/
theorem claim_C4_counterexample :
    (fetch Sys.empty
        { method := "PUT", pathname := "/bin/x", formatParam := none,
          jsonBody := none, contentTypeHeader := none, rawBody := [] } 0).2.status
      = 404 ∧
    ¬ ((fetch Sys.empty
        { method := "PUT", pathname := "/bin/x", formatParam := none,
          jsonBody := none, contentTypeHeader := none, rawBody := [] } 0).2.status
      = 405) ∧
    (fetch Sys.empty
        { method := "POST", pathname := "/", formatParam := none,
          jsonBody := none, contentTypeHeader := none, rawBody := [] } 0).2.status
      = 200 :=
  ⟨by decide, by decide, by decide⟩

/-- Claim C4 (amended).  Wrong-method handling is per route: `/api/bin/{id}`
(and longer) answers 405 to non-GET; `/bin/{id}/photo` (and longer) answers
405 to non-GET/POST; `/bin/{id}` answers 404 (not 405) to non-GET/POST; and
`/` answers 200 to every method. -/
theorem claim_C4_method_dispatch (σ : Sys) (req : Request) (now : Nat) :
    (∀ id rest, segmentsOf req.pathname = "api" :: "bin" :: id :: rest →
      req.method ≠ "GET" →
      (fetch σ req now).2 = textResp 405 "Method not allowed") ∧
    (∀ id rest, segmentsOf req.pathname = "bin" :: id :: "photo" :: rest →
      req.method ≠ "GET" → req.method ≠ "POST" →
      (fetch σ req now).2 = textResp 405 "Method not allowed") ∧
    (∀ id, segmentsOf req.pathname = ["bin", id] →
      req.method ≠ "GET" → req.method ≠ "POST" →
      (fetch σ req now).2 = textResp 404 "Not found") ∧
    (segmentsOf req.pathname = [] →
      (fetch σ req now).2 = textResp 200 "Smart Bin Worker online") := by
  refine ⟨?_, ?_, ?_, ?_⟩
  · intro id rest hseg hm
    unfold fetch
    rw [hseg]
    simp [hm]
  · intro id rest hseg hm1 hm2
    unfold fetch
    rw [hseg]
    simp [hm1, hm2]
  · intro id hseg hm1 hm2
    unfold fetch
    rw [hseg]
    simp [hm1, hm2]
  · intro hseg
    unfold fetch
    rw [hseg]

/-- Claim C4, witness: one request per route family. -/
theorem claim_C4_witness :
    (fetch Sys.empty
        { method := "PUT", pathname := "/api/bin/x", formatParam := none,
          jsonBody := none, contentTypeHeader := none, rawBody := [] } 0).2 =
      textResp 405 "Method not allowed" ∧
    (fetch Sys.empty
        { method := "DELETE", pathname := "/bin/x/photo", formatParam := none,
          jsonBody := none, contentTypeHeader := none, rawBody := [] } 0).2 =
      textResp 405 "Method not allowed" ∧
    (fetch Sys.empty
        { method := "PUT", pathname := "/bin/x", formatParam := none,
          jsonBody := none, contentTypeHeader := none, rawBody := [] } 0).2 =
      textResp 404 "Not found" ∧
    (fetch Sys.empty
        { method := "POST", pathname := "/", formatParam := none,
          jsonBody := none, contentTypeHeader := none, rawBody := [] } 0).2 =
      textResp 200 "Smart Bin Worker online" :=
  ⟨(claim_C4_method_dispatch Sys.empty
      { method := "PUT", pathname := "/api/bin/x", formatParam := none,
        jsonBody := none, contentTypeHeader := none, rawBody := [] } 0).1
      "x" [] (by decide) (by decide),
   (claim_C4_method_dispatch Sys.empty
      { method := "DELETE", pathname := "/bin/x/photo", formatParam := none,
        jsonBody := none, contentTypeHeader := none, rawBody := [] } 0).2.1
      "x" [] (by decide) (by decide) (by decide),
   (claim_C4_method_dispatch Sys.empty
      { method := "PUT", pathname := "/bin/x", formatParam := none,
        jsonBody := none, contentTypeHeader := none, rawBody := [] } 0).2.2.1
      "x" (by decide) (by decide) (by decide),
   (claim_C4_method_dispatch Sys.empty
      { method := "POST", pathname := "/", formatParam := none,
        jsonBody := none, contentTypeHeader := none, rawBody := [] } 0).2.2.2
      (by decide)⟩

/-- Claim C5, counterexample.  `/api/bin/x/y` matches none of the five
route patterns (extra segment), yet the dispatcher still invokes the JSON
read handler for bin `x` instead of returning the plain-text 404. -/
theorem claim_C5_counterexample :
    (fetch Sys.empty
        { method := "GET", pathname := "/api/bin/x/y", formatParam := none,
          jsonBody := none, contentTypeHeader := none, rawBody := [] } 0).2 =
      jsonResp (Body.jsonNotFound "x" "Bin not registered yet") 404 ∧
    ¬ ((fetch Sys.empty
        { method := "GET", pathname := "/api/bin/x/y", formatParam := none,
          jsonBody := none, contentTypeHeader := none, rawBody := [] } 0).2 =
      textResp 404 "Not found") :=
  ⟨by decide, by decide⟩

/-- Claim C5 (amended).  `/api/bin/{id}` and `/bin/{id}/photo` are matched
by prefix (extra trailing segments are routed, not rejected); every request
whose segments match none of the dispatcher's shapes gets the plain-text
404 with the state untouched — no handler runs. -/
theorem claim_C5_unrouted (σ : Sys) (req : Request) (now : Nat)
    (h : routePrefixMatched (segmentsOf req.pathname) = false) :
    fetch σ req now = (σ, textResp 404 "Not found") := by
  unfold fetch
  split
  · rename_i heq
    rw [heq] at h
    simp [routePrefixMatched] at h
  · rename_i heq
    rw [heq] at h
    simp [routePrefixMatched] at h
  · rename_i heq
    rw [heq] at h
    split
    · simp [routePrefixMatched] at h
    · simp [routePrefixMatched] at h
    · rfl
  · rfl

/-- Claim C5, witness: `/bin/x/other` matches no route shape. -/
theorem claim_C5_witness :
    fetch Sys.empty
        { method := "GET", pathname := "/bin/x/other", formatParam := none,
          jsonBody := none, contentTypeHeader := none, rawBody := [] } 0 =
      (Sys.empty, textResp 404 "Not found") :=
  claim_C5_unrouted Sys.empty _ 0 (by decide)

/-- Claim C7, counterexample.  Two uploads to the same bin within the same
millisecond generate the same key `bins/b/5.img`, so the second upload
replaces the first blob: keys are not unique across uploads and an earlier
photo blob is overwritten. -/
theorem claim_C7_counterexample :
    ((getBlob (handleBinPhotoPost (handleBinPhotoPost Sys.empty "b" none [1] 5).1
        "b" none [2] 5).1.blobs (mkPhotoKey "b" 5)).map BlobObj.body = some [2]) ∧
    ¬ ((getBlob (handleBinPhotoPost (handleBinPhotoPost Sys.empty "b" none [1] 5).1
        "b" none [2] 5).1.blobs (mkPhotoKey "b" 5)).map BlobObj.body = some [1]) :=
  ⟨by decide, by decide⟩

/-- Claim C7 (amended).  A photo POST stores the blob under the key
`bins/{enc bin id}/{timestamp}.img` and upserts the record's `photo_key` to
that key; blobs under every other key are untouched, and keys generated at
distinct timestamps are distinct (so with a strictly increasing clock no
earlier blob is ever overwritten; two uploads sharing a millisecond and a
bin do collide).  The response echoes the key, the derived URL and the
resolved record. -/
theorem claim_C7_photo_post (σ : Sys) (binId : String) (ct : Option String)
    (rb : List Nat) (now : Nat) :
    ((handleBinPhotoPost σ binId ct rb now).1.blobs =
      (mkPhotoKey binId now,
        { body := rb, contentType := some (jsOrStr ct "application/octet-stream"),
          cacheControl := none }) :: σ.blobs) ∧
    (∀ k, k ≠ mkPhotoKey binId now →
      getBlob (handleBinPhotoPost σ binId ct rb now).1.blobs k =
        getBlob σ.blobs k) ∧
    (∀ b1 t1 b2 t2, mkPhotoKey b1 t1 = mkPhotoKey b2 t2 → t1 = t2) ∧
    (∃ r, getBinRow (handleBinPhotoPost σ binId ct rb now).1.rows binId = some r ∧
      r.photo_key = some (mkPhotoKey binId now)) ∧
    ((handleBinPhotoPost σ binId ct rb now).2 =
      jsonResp (Body.jsonPhotoPosted "ok" binId (mkPhotoKey binId now)
        (photoUrl binId)
        (getBinRow (handleBinPhotoPost σ binId ct rb now).1.rows binId)) 200) := by
  refine ⟨rfl, ?_, ?_, ?_, ?_⟩
  · intro k hk
    simp only [handleBinPhotoPost]
    exact getBlob_cons_other _ _ _ _ hk
  · intro b1 t1 b2 t2 h
    exact mkPhotoKey_inj_timestamp b1 t1 b2 t2 h
  · refine ⟨mergedRow σ.rows binId
      { case_code := JsVal.undef, bin_type := JsVal.undef, notes := JsVal.undef,
        photo_key := JsVal.str (mkPhotoKey binId now) } now, ?_, ?_⟩
    · simp only [handleBinPhotoPost]
      exact getBinRow_upsert_self _ _ _ _
    · unfold mergedRow
      cases getBinRow σ.rows binId <;> simp [coalesce]
  · simp only [handleBinPhotoPost]
    rw [upsertBinRow_snd, getBinRow_upsert_self]

/-- Claim C7, witness: a concrete upload at time 7, with a probe at the
time-8 key and the timestamp injectivity applied at time 7. -/
theorem claim_C7_witness :
    (handleBinPhotoPost Sys.empty "b" none [1, 2] 7).1.blobs =
      [(mkPhotoKey "b" 7,
        { body := [1, 2], contentType := some "application/octet-stream",
          cacheControl := none })] ∧
    getBlob (handleBinPhotoPost Sys.empty "b" none [1, 2] 7).1.blobs
        (mkPhotoKey "b" 8) = none ∧
    (7 : Nat) = 7 := by
  refine ⟨?_, ?_, ?_⟩
  · exact (claim_C7_photo_post Sys.empty "b" none [1, 2] 7).1
  · exact ((claim_C7_photo_post Sys.empty "b" none [1, 2] 7).2.1
      (mkPhotoKey "b" 8) (by decide)).trans rfl
  · exact (claim_C7_photo_post Sys.empty "b" none [1, 2] 7).2.2.1 "b" 7 "b" 7 rfl

end SmartBin
